import Mathlib

/-!
Shallow embedding of ldap3/core/pooling.py: the ServerPoolState selection cursor
and the ServerPool registry, with the randomness of random.randint and the
server.check_availability() liveness probe passed in as explicit oracles, and the
unbounded retry loops (while True) bounded by explicit fuel (a result of `none`
means the loop has not returned within that much fuel).
-/

/-- Modelled from the spec: an Endpoint (ldap3 Server) is identified by its logical
address, and equality is by address, not by instance identity (the Server class
itself lives in ldap3/core/server.py, outside this fragment; only its identity
and its check_availability capability, passed around here as an oracle, matter). -/
structure Server where
  address : String
deriving DecidableEq

/-- Exceptions raised by the code paths modelled here: the three ldap3 exception
classes used by pooling.py plus the two Python builtin exceptions its code can
produce (ValueError from randint over an empty range, IndexError from list
indexing out of range). -/
inductive PyError where
  | unknownStrategy
  | serverPoolError
  | serverPoolExhausted
  | valueError
  | indexError
deriving DecidableEq

/-- The pooling strategies FIRST, ROUND_ROBIN, RANDOM; `invalid` stands for any
value outside POOLING_STRATEGIES. -/
inductive PoolingStrategy where
  | first
  | roundRobin
  | random
  | invalid
deriving DecidableEq

/-- Python random.randint(0, b) with an explicit randomness oracle r: it raises
ValueError when b < 0 (empty range), otherwise it returns r % (b + 1), a value in
[0, b]; every value the real randint can draw is realised by some oracle value. -/
def randintN (r : Nat) (b : Int) : Except PyError Nat :=
  if b < 0 then .error .valueError else .ok (r % (b.toNat + 1))

/-- Python list indexing l[i] for a nonnegative index: IndexError when i is not
below len(l). -/
def pyGet (l : List Server) (i : Nat) : Except PyError Server :=
  if h : i < l.length then .ok (l.get ⟨i, h⟩) else .error .indexError

/-- The inner while loop of ServerPoolState.find_active_server, with count the
number of iterations remaining (count = stop - index for the source's guard
index < stop): probes servers[index], servers[index + 1], ... through the
liveness oracle `live` (given by index) and stops at the first live index.
Returns that index (`none` when the while/else fires) and the trace of probed
indices, in probe order. -/
def scanUp (live : Nat → Bool) : Nat → Nat → Option Nat × List Nat
  | 0, _ => (none, [])
  | count + 1, index =>
    if live index then (some index, [index])
    else
      let p := scanUp live count (index + 1)
      (p.1, index :: p.2)

/-- Specification-side probe order: probe the indices of l from the front and stop
at the first live one; returns the result and the trace of probed indices. Used
only to state what the while loops of find_active_server compute. -/
def probeList (live : Nat → Bool) : List Nat → Option Nat × List Nat
  | [] => (none, [])
  | i :: rest =>
    if live i then (some i, [i])
    else
      let p := probeList live rest
      (p.1, i :: p.2)

/-- The circular probe order starting at s over n indices:
s, s + 1, ..., n - 1, 0, ..., s - 1. -/
def circularOrder (n s : Nat) : List Nat :=
  List.range' s (n - s) ++ List.range s

/-- One pass of ServerPoolState.find_active_server (the body of its while True):
the first while loop scans indices starting .. n - 1, and on fall-through its
while/else scans 0 .. starting - 1; returns the first live index (`none` when
both loops fall through, i.e. the code reaches raise/continue) and the probe
trace. -/
def findActiveServerPass (live : Nat → Bool) (n starting : Nat) :
    Option Nat × List Nat :=
  let p1 := scanUp live (n - starting) starting
  match p1.1 with
  | some i => (some i, p1.2)
  | none =>
    let p2 := scanUp live starting 0
    (p2.1, p1.2 ++ p2.2)

/-- ServerPoolState.find_active_server with its outer while True bounded by fuel:
a pass that finds a live index returns it, otherwise exhaust=True raises
LDAPServerPoolExhaustedError and exhaust=False retries (`none` = no return
within fuel passes). -/
def find_active_server (live : Nat → Bool) (n starting : Nat) (exhaust : Bool) :
    Nat → Option (Except PyError Nat)
  | 0 => none
  | fuel + 1 =>
    match (findActiveServerPass live n starting).1 with
    | some i => some (.ok i)
    | none =>
      if exhaust then some (.error .serverPoolExhausted)
      else find_active_server live n starting exhaust fuel

/-- One pass of ServerPoolState.find_active_random_server (its inner
while temp_list loop). temp is the working copy of the snapshot, each element
tagged with its original position; t counts randint draws, and
choices t % len(temp) is randint(0, len(temp) - 1) under the oracle `choices`
(always in range since temp is nonempty at the draw). The chosen element is
popped and probed; on the first live hit the pass returns
(servers.index(server) — the index of the first equal occurrence in the
snapshot —, the popped element's original position, the popped server). The
trace of popped servers is also returned, in pop order. -/
def findActiveRandomPass (choices : Nat → Nat) (live : Server → Bool)
    (servers : List Server) : Nat → List (Nat × Server) →
    Option (Nat × Nat × Server) × List Server
  | _, [] => (none, [])
  | t, q :: rest =>
    let temp := q :: rest
    let k := choices t % temp.length
    let c := temp.getD k (0, ⟨""⟩)
    if live c.2 then (some (servers.indexOf c.2, c.1, c.2), [c.2])
    else
      let p := findActiveRandomPass choices live servers (t + 1) (temp.eraseIdx k)
      (p.1, c.2 :: p.2)
termination_by _t temp => temp.length
decreasing_by
  simp only [List.length_eraseIdx, temp]
  split
  · omega
  · rename_i hk
    exact absurd (Nat.mod_lt _ (by simp [temp])) hk

/-- ServerPoolState.find_active_random_server with its outer while True bounded
by fuel. Each pass starts from a fresh copy of the snapshot (with original
positions attached); a failed pass consumes exactly len(servers) randint draws,
so the retry sees the oracle shifted by len(servers). -/
def find_active_random_server (choices : Nat → Nat) (live : Server → Bool)
    (servers : List Server) (exhaust : Bool) : Nat → Option (Except PyError Nat)
  | 0 => none
  | fuel + 1 =>
    match (findActiveRandomPass choices live servers 0 servers.enum).1 with
    | some rc => some (.ok rc.1)
    | none =>
      if exhaust then some (.error .serverPoolExhausted)
      else find_active_random_server (fun k => choices (k + servers.length)) live
        servers exhaust fuel

/-- The per-connection selection cursor ServerPoolState: the snapshot of the
registry's servers, the copied strategy, and the cursor last_used_server. The
server_pool back reference is passed explicitly to each operation and the
informational initialize_time timestamp is omitted. -/
structure ServerPoolState where
  servers : List Server
  strategy : PoolingStrategy
  last_used_server : Nat
deriving DecidableEq

/-- The shared registry ServerPool. pool_states is the connection-to-state dict
in insertion order, keyed by an opaque connection id. -/
structure ServerPool where
  servers : List Server
  strategy : PoolingStrategy
  active : Bool
  exhaust : Bool
  pool_states : List (Nat × ServerPoolState)
deriving DecidableEq

/-- ServerPoolState.refresh: replace the snapshot with a copy of the registry's
current server list, then redraw last_used_server = randint(0, len(servers) - 1)
with oracle r. When the new snapshot is empty the draw raises ValueError; the
snapshot replacement has already happened by then (Python object mutation
persists), so the state after the call is returned alongside the exception. -/
def ServerPoolState.refresh (st : ServerPoolState) (poolServers : List Server)
    (r : Nat) : ServerPoolState × Option PyError :=
  let st1 := { st with servers := poolServers }
  match randintN r ((poolServers.length : Int) - 1) with
  | .error e => (st1, some e)
  | .ok idx => ({ st1 with last_used_server := idx }, none)

/-- ServerPoolState init: start from an empty snapshot with the pool's
strategy, run refresh() (first randint draw, oracle r1), then draw
last_used_server = randint(0, len(servers) - 1) a second time (oracle r2). On an
empty registry refresh raises ValueError and no state object is produced. -/
def ServerPoolState.init (pool : ServerPool) (r1 r2 : Nat) :
    Except PyError ServerPoolState :=
  let st0 : ServerPoolState := ⟨[], pool.strategy, 0⟩
  match st0.refresh pool.servers r1 with
  | (_, some e) => .error e
  | (st1, none) =>
    match randintN r2 ((st1.servers.length : Int) - 1) with
    | .error e => .error e
    | .ok idx => .ok { st1 with last_used_server := idx }

/-- ServerPoolState.get_server. The liveness probe server.check_availability()
is the oracle liveS; `choices` drives the randint draws of
find_active_random_server, r the single randint(0, len(self.servers)) draw of
the RANDOM / active=False branch, and `fuel` bounds the unbounded retry loops of
the two active scans (`none` = no return within fuel passes). On success the
result is (self.servers[self.last_used_server], the updated state); the probe of
servers[index] inside find_active_server is liveS applied to the server at that
index of the snapshot. -/
def ServerPoolState.get_server (st : ServerPoolState) (pool : ServerPool)
    (liveS : Server → Bool) (choices : Nat → Nat) (r : Nat) (fuel : Nat) :
    Option (Except PyError (Server × ServerPoolState)) :=
  if st.servers = [] then some (.error .serverPoolError)
  else
    let liveIx : Nat → Bool := fun i => liveS (st.servers.getD i ⟨""⟩)
    let finish : Nat → Option (Except PyError (Server × ServerPoolState)) := fun i =>
      match pyGet st.servers i with
      | .ok srv => some (.ok (srv, { st with last_used_server := i }))
      | .error e => some (.error e)
    match pool.strategy with
    | .first =>
      if pool.active then
        match find_active_server liveIx st.servers.length 0 pool.exhaust fuel with
        | none => none
        | some (.error e) => some (.error e)
        | some (.ok i) => finish i
      else finish 0
    | .roundRobin =>
      if pool.active then
        match find_active_server liveIx st.servers.length (st.last_used_server + 1)
            pool.exhaust fuel with
        | none => none
        | some (.error e) => some (.error e)
        | some (.ok i) => finish i
      else
        finish (if st.last_used_server + 1 < st.servers.length
          then st.last_used_server + 1 else 0)
    | .random =>
      if pool.active then
        match find_active_random_server choices liveS st.servers pool.exhaust fuel with
        | none => none
        | some (.error e) => some (.error e)
        | some (.ok i) => finish i
      else
        match randintN r (st.servers.length : Int) with
        | .ok i => finish i
        | .error e => some (.error e)
    | .invalid => some (.error .unknownStrategy)

/-- An element of a sequence argument to ServerPool.add: a Server, a string
address, or anything else (invalid — makes add raise LDAPServerPoolError). -/
inductive AddElem where
  | server (s : Server)
  | str (a : String)
  | invalid
deriving DecidableEq

/-- The conversion add applies to each sequence element (none for an invalid
element). -/
def AddElem.toServer : AddElem → Option Server
  | .server s => some s
  | .str a => some ⟨a⟩
  | .invalid => none

/-- The argument of ServerPool.add: a single Server, a string address, a
sequence, or anything else (raises LDAPServerPoolError). -/
inductive AddArg where
  | server (s : Server)
  | str (a : String)
  | seq (l : List AddElem)
  | other
deriving DecidableEq

/-- The for loop of ServerPool.add over a sequence argument: append each valid
element in order; at the first invalid element the exception is raised with
everything appended so far kept (in the source the earlier appends have already
mutated the list when the raise propagates). -/
def appendSeq (acc : List Server) : List AddElem → List Server × Option PyError
  | [] => (acc, none)
  | .server s :: rest => appendSeq (acc ++ [s]) rest
  | .str a :: rest => appendSeq (acc ++ [⟨a⟩]) rest
  | .invalid :: _ => (acc, some .serverPoolError)

/-- The refresh broadcast at the end of add and remove: refresh every registered
state in dict order, oracle rs t for the t-th one. A refresh that raises (new
server list empty) leaves that cursor with the replaced snapshot but the stale
index, stops the broadcast, and propagates the exception; later cursors are not
refreshed. -/
def broadcastRefresh (poolServers : List Server) (rs : Nat → Nat) :
    Nat → List (Nat × ServerPoolState) →
    List (Nat × ServerPoolState) × Option PyError
  | _, [] => ([], none)
  | t, (c, st) :: rest =>
    match st.refresh poolServers (rs t) with
    | (st1, some e) => ((c, st1) :: rest, some e)
    | (st1, none) =>
      let p := broadcastRefresh poolServers rs (t + 1) rest
      ((c, st1) :: p.1, p.2)

/-- The shared tail of add and remove: install the mutated server list, then run
the refresh broadcast. Returns the pool after the call and the exception raised
by the broadcast, if any. -/
def poolAfterMutation (pool : ServerPool) (rs : Nat → Nat)
    (newServers : List Server) : ServerPool × Option PyError :=
  let p := broadcastRefresh newServers rs 0 pool.pool_states
  ({ pool with servers := newServers, pool_states := p.1 }, p.2)

/-- ServerPool.add. Python object mutations persist when an exception
propagates, so the result is the pool as it stands after the call, paired with
the raised exception, if any. A single Server is appended only when no equal
server is already present; a string is wrapped and appended unconditionally; a
sequence is appended element by element with no membership check, raising at the
first invalid element (before any broadcast); any other argument raises
immediately. -/
def ServerPool.add (pool : ServerPool) (rs : Nat → Nat) (arg : AddArg) :
    ServerPool × Option PyError :=
  match arg with
  | .server s =>
    if s ∈ pool.servers then poolAfterMutation pool rs pool.servers
    else poolAfterMutation pool rs (pool.servers ++ [s])
  | .str a => poolAfterMutation pool rs (pool.servers ++ [⟨a⟩])
  | .seq l =>
    match appendSeq pool.servers l with
    | (servers1, some e) => ({ pool with servers := servers1 }, some e)
    | (servers1, none) => poolAfterMutation pool rs servers1
  | .other => (pool, some .serverPoolError)

/-- ServerPool.remove: remove the first occurrence equal to s, or raise
LDAPServerPoolError when absent; on success run the refresh broadcast. -/
def ServerPool.remove (pool : ServerPool) (rs : Nat → Nat) (s : Server) :
    ServerPool × Option PyError :=
  if s ∈ pool.servers then poolAfterMutation pool rs (pool.servers.erase s)
  else (pool, some .serverPoolError)

/-- Python dict assignment d[k] = v on an insertion-ordered association list:
replace in place when the key is present, append otherwise. -/
def setEntry (m : List (Nat × ServerPoolState)) (k : Nat) (v : ServerPoolState) :
    List (Nat × ServerPoolState) :=
  match m with
  | [] => [(k, v)]
  | (k1, v1) :: rest =>
    if k1 = k then (k, v) :: rest else (k1, v1) :: setEntry rest k v

/-- ServerPool.initialize: build a ServerPoolState for the connection (two
randint draws, oracles r1 and r2) and register it under the connection id; when
the construction raises, nothing is registered and the pool is unchanged. -/
def ServerPool.initialize (pool : ServerPool) (r1 r2 : Nat) (connection : Nat) :
    ServerPool × Option PyError :=
  match ServerPoolState.init pool r1 r2 with
  | .error e => (pool, some e)
  | .ok st =>
    ({ pool with pool_states := setEntry pool.pool_states connection st }, none)

/-- The servers argument of ServerPool init: None, a single Server, a string
address, or a sequence. Any other value behaves like None (the source only
dispatches on sequence/Server and string), so noneArg covers it. -/
inductive InitArg where
  | noneArg
  | server (s : Server)
  | str (a : String)
  | seq (l : List AddElem)
deriving DecidableEq

/-- ServerPool init: validate the strategy (LDAPUnknownStrategyError outside
POOLING_STRATEGIES) and the exhaust/active combination (LDAPServerPoolError when
exhaust and not active), start with empty servers and pool_states, then route
the servers argument through add — a bare string is wrapped as Server(servers)
first, so it takes the single-Server path of add. The strategy attribute is
assigned after the add in the source; add never reads it, so it is stored up
front here. A raise from validation or from add aborts construction. -/
def ServerPool.init (rs : Nat → Nat) (servers : InitArg)
    (pool_strategy : PoolingStrategy) (active : Bool) (exhaust : Bool) :
    Except PyError ServerPool :=
  if pool_strategy = .invalid then .error .unknownStrategy
  else if exhaust && !active then .error .serverPoolError
  else
    let base : ServerPool := ⟨[], pool_strategy, active, exhaust, []⟩
    match servers with
    | .noneArg => .ok base
    | .server s =>
      match base.add rs (.server s) with
      | (p, none) => .ok p
      | (_, some e) => .error e
    | .str a =>
      match base.add rs (.server ⟨a⟩) with
      | (p, none) => .ok p
      | (_, some e) => .error e
    | .seq l =>
      match base.add rs (.seq l) with
      | (p, none) => .ok p
      | (_, some e) => .error e

/-- ServerPool len(...): the number of servers in the registry. -/
def ServerPool.length (pool : ServerPool) : Nat :=
  pool.servers.length

/-- Iterate get_server count times from st with fixed oracles, collecting the
returned servers in call order; `none` when some call raises or does not
return. -/
def getServerTrace (pool : ServerPool) (liveS : Server → Bool)
    (choices : Nat → Nat) (r : Nat) (fuel : Nat) :
    Nat → ServerPoolState → Option (List Server × ServerPoolState)
  | 0, st => some ([], st)
  | count + 1, st =>
    match st.get_server pool liveS choices r fuel with
    | some (.ok (srv, st1)) =>
      match getServerTrace pool liveS choices r fuel count st1 with
      | some (l, st2) => some (srv :: l, st2)
      | none => none
    | _ => none

/-! Helper lemmas about the circular scan. -/

theorem scanUp_eq_probeList (live : Nat → Bool) :
    ∀ count index, scanUp live count index = probeList live (List.range' index count) := by
  intro count
  induction count with
  | zero => intro index; simp [scanUp, probeList]
  | succ k ih =>
    intro index
    rw [List.range'_succ]
    by_cases h : live index
    · simp [scanUp, probeList, h]
    · simp [scanUp, probeList, h, ih]

theorem probeList_fst (live : Nat → Bool) :
    ∀ l : List Nat, (probeList live l).1 = l.find? live := by
  intro l
  induction l with
  | nil => simp [probeList]
  | cons a rest ih =>
    by_cases h : live a
    · simp [probeList, List.find?, h]
    · simp [probeList, List.find?, h, ih]

theorem probeList_snd (live : Nat → Bool) :
    ∀ l : List Nat, (probeList live l).2 =
      l.takeWhile (fun i => !live i) ++ (l.dropWhile (fun i => !live i)).take 1 := by
  intro l
  induction l with
  | nil => simp [probeList]
  | cons a rest ih =>
    by_cases h : live a
    · simp [probeList, List.takeWhile, List.dropWhile, h]
    · simp [probeList, List.takeWhile, List.dropWhile, h, ih]

theorem probeList_append_some (live : Nat → Bool) (l1 l2 : List Nat) (i : Nat)
    (h : (probeList live l1).1 = some i) :
    probeList live (l1 ++ l2) = probeList live l1 := by
  induction l1 with
  | nil => simp [probeList] at h
  | cons a rest ih =>
    by_cases ha : live a
    · simp [probeList, ha]
    · simp only [probeList, ha, Bool.false_eq_true, if_false, List.cons_append,
        List.append_eq] at h ⊢
      rw [ih h]

theorem probeList_append_none (live : Nat → Bool) (l1 l2 : List Nat)
    (h : (probeList live l1).1 = none) :
    probeList live (l1 ++ l2) =
      ((probeList live l2).1, (probeList live l1).2 ++ (probeList live l2).2) := by
  induction l1 with
  | nil => simp [probeList]
  | cons a rest ih =>
    by_cases ha : live a
    · simp [probeList, ha] at h
    · simp only [probeList, ha, Bool.false_eq_true, if_false, List.cons_append,
        List.append_eq] at h ⊢
      rw [ih h]

theorem findActiveServerPass_eq (live : Nat → Bool) (n s : Nat) :
    findActiveServerPass live n s = probeList live (circularOrder n s) := by
  unfold findActiveServerPass circularOrder
  rw [scanUp_eq_probeList, scanUp_eq_probeList, List.range_eq_range']
  cases h : (probeList live (List.range' s (n - s))).1 with
  | some i =>
    rw [probeList_append_some live _ _ i h]
    simp only [h]
    rw [show probeList live (List.range' s (n - s)) =
      ((probeList live (List.range' s (n - s))).1,
        (probeList live (List.range' s (n - s))).2) from rfl, h]
  | none =>
    rw [probeList_append_none live _ _ h]
    simp [h]

theorem circularOrder_perm (n s : Nat) (h : s ≤ n) :
    List.Perm (circularOrder n s) (List.range n) := by
  unfold circularOrder
  rw [List.range_eq_range' n, List.range_eq_range' s]
  have h2 : List.range' 0 s ++ List.range' s (n - s) = List.range' 0 n := by
    have h3 := List.range'_append_1 0 s (n - s)
    rw [Nat.zero_add] at h3
    rwa [Nat.sub_add_cancel h] at h3
  have h4 : List.Perm (List.range' s (n - s) ++ List.range' 0 s)
      (List.range' 0 s ++ List.range' s (n - s)) := List.perm_append_comm
  rw [h2] at h4
  exact h4

theorem circularOrder_nodup (n s : Nat) (h : s ≤ n) : (circularOrder n s).Nodup :=
  (circularOrder_perm n s h).nodup_iff.mpr (List.nodup_range n)

theorem mem_circularOrder (n s i : Nat) (h : s ≤ n) :
    i ∈ circularOrder n s ↔ i < n := by
  rw [(circularOrder_perm n s h).mem_iff, List.mem_range]

/-- C2 — Circular-scan correctness: for every snapshot length n and starting
index s with s ≤ n, one pass of find_active_server probes indices exactly in
the circular order s, s+1, ..., n-1, 0, ..., s-1 (that order is duplicate free
and a permutation of [0, n), so each index is probed at most once per pass),
returns the index of the first endpoint whose availability probe is true, and
probes nothing beyond the first live index: the trace is the dead prefix of the
circular order followed by the first live index, when one exists. -/
theorem find_active_server_circular_scan (live : Nat → Bool) (n s : Nat)
    (h : s ≤ n) :
    (findActiveServerPass live n s).1 = (circularOrder n s).find? live ∧
    (findActiveServerPass live n s).2 =
      (circularOrder n s).takeWhile (fun i => !live i) ++
        ((circularOrder n s).dropWhile (fun i => !live i)).take 1 ∧
    (circularOrder n s).Nodup ∧
    List.Perm (circularOrder n s) (List.range n) := by
  refine ⟨?_, ?_, circularOrder_nodup n s h, circularOrder_perm n s h⟩
  · rw [findActiveServerPass_eq, probeList_fst]
  · rw [findActiveServerPass_eq, probeList_snd]

/-- Witness for C2 at n = 2, s = 1, with only index 0 live. -/
theorem find_active_server_circular_scan_witness :
    1 ≤ 2 ∧
    ((findActiveServerPass (fun i => i == 0) 2 1).1 =
        (circularOrder 2 1).find? (fun i => i == 0) ∧
      (findActiveServerPass (fun i => i == 0) 2 1).2 =
        (circularOrder 2 1).takeWhile (fun i => !(i == 0)) ++
          ((circularOrder 2 1).dropWhile (fun i => !(i == 0))).take 1 ∧
      (circularOrder 2 1).Nodup ∧
      List.Perm (circularOrder 2 1) (List.range 2)) :=
  ⟨by decide, find_active_server_circular_scan (fun i => i == 0) 2 1 (by decide)⟩

/-! Helper lemmas about the randomised scan. -/

theorem getD_eq_getElem_of_lt {α : Type} (l : List α) (i : Nat) (d : α)
    (h : i < l.length) : l.getD i d = l[i] := by
  rw [List.getD_eq_getElem?_getD, List.getElem?_eq_getElem h]
  rfl

theorem map_eraseIdx_comm {α β : Type} (f : α → β) :
    ∀ (l : List α) (k : Nat), (l.eraseIdx k).map f = (l.map f).eraseIdx k := by
  intro l
  induction l with
  | nil => intro k; simp
  | cons a rest ih =>
    intro k
    cases k with
    | zero => simp [List.eraseIdx]
    | succ k2 => simp [List.eraseIdx, ih]

theorem perm_getD_cons_eraseIdx {α : Type} (l : List α) (k : Nat)
    (hk : k < l.length) (d : α) :
    List.Perm l (l.getD k d :: l.eraseIdx k) := by
  rw [getD_eq_getElem_of_lt l k d hk, List.eraseIdx_eq_take_drop_succ]
  conv_lhs => rw [← List.take_append_drop k l, ← List.getElem_cons_drop l k hk]
  exact List.perm_middle

theorem findActiveRandomPass_dead (choices : Nat → Nat) (live : Server → Bool)
    (servers : List Server) :
    ∀ (N : Nat) (temp : List (Nat × Server)) (t : Nat), temp.length ≤ N →
      (∀ p ∈ temp, live p.2 = false) →
      (findActiveRandomPass choices live servers t temp).1 = none ∧
      List.Perm (findActiveRandomPass choices live servers t temp).2
        (temp.map Prod.snd) := by
  intro N
  induction N with
  | zero =>
    intro temp t hlen _
    have h0 : temp = [] := List.length_eq_zero.mp (Nat.le_zero.mp hlen)
    subst h0
    simp [findActiveRandomPass]
  | succ N ih =>
    intro temp t hlen hdead
    cases temp with
    | nil => simp [findActiveRandomPass]
    | cons q rest =>
      have hklt : choices t % (q :: rest).length < (q :: rest).length :=
        Nat.mod_lt _ (by simp)
      have hcd : live ((q :: rest).getD (choices t % (q :: rest).length) (0, ⟨""⟩)).2
          = false := by
        refine hdead _ ?_
        rw [getD_eq_getElem_of_lt _ _ _ hklt]
        exact List.getElem_mem hklt
      rw [findActiveRandomPass]
      simp only [hcd, Bool.false_eq_true, if_false]
      have hlen2 : ((q :: rest).eraseIdx (choices t % (q :: rest).length)).length ≤ N := by
        rw [List.length_eraseIdx_of_lt hklt]
        simp only [List.length_cons] at hlen ⊢
        omega
      have hdead2 : ∀ p ∈ (q :: rest).eraseIdx (choices t % (q :: rest).length),
          live p.2 = false := fun p hp => hdead p (List.mem_of_mem_eraseIdx hp)
      have hrec := ih ((q :: rest).eraseIdx (choices t % (q :: rest).length))
        (t + 1) hlen2 hdead2
      refine ⟨hrec.1, ?_⟩
      have hgd : (((q :: rest).map Prod.snd).getD (choices t % (q :: rest).length)
            (Server.mk "")) =
          ((q :: rest).getD (choices t % (q :: rest).length) (0, ⟨""⟩)).2 := by
        have hkm : choices t % (q :: rest).length < ((q :: rest).map Prod.snd).length := by
          simpa using hklt
        rw [getD_eq_getElem_of_lt _ _ _ hkm, getD_eq_getElem_of_lt _ _ _ hklt,
          List.getElem_map]
      have hperm1 : List.Perm ((q :: rest).map Prod.snd)
          (((q :: rest).getD (choices t % (q :: rest).length) (0, ⟨""⟩)).2 ::
            ((q :: rest).eraseIdx (choices t % (q :: rest).length)).map Prod.snd) := by
        have hkm : choices t % (q :: rest).length < ((q :: rest).map Prod.snd).length := by
          simpa using hklt
        have hp := perm_getD_cons_eraseIdx ((q :: rest).map Prod.snd)
          (choices t % (q :: rest).length) hkm (Server.mk "")
        rw [hgd, ← map_eraseIdx_comm] at hp
        exact hp
      exact (List.Perm.cons _ hrec.2).trans hperm1.symm

theorem findActiveRandomPass_some_spec (choices : Nat → Nat) (live : Server → Bool)
    (servers : List Server) :
    ∀ (N : Nat) (temp : List (Nat × Server)) (t r orig : Nat) (srv : Server),
      temp.length ≤ N →
      (∀ p ∈ temp, p.2 ∈ servers) →
      (findActiveRandomPass choices live servers t temp).1 = some (r, orig, srv) →
      live srv = true ∧ srv ∈ servers ∧ r = servers.indexOf srv := by
  intro N
  induction N with
  | zero =>
    intro temp t r orig srv hlen _ heq
    have h0 : temp = [] := List.length_eq_zero.mp (Nat.le_zero.mp hlen)
    subst h0
    simp [findActiveRandomPass] at heq
  | succ N ih =>
    intro temp t r orig srv hlen hmem heq
    cases temp with
    | nil => simp [findActiveRandomPass] at heq
    | cons q rest =>
      have hklt : choices t % (q :: rest).length < (q :: rest).length :=
        Nat.mod_lt _ (by simp)
      have hcmem : ((q :: rest).getD (choices t % (q :: rest).length) (0, ⟨""⟩))
          ∈ q :: rest := by
        rw [getD_eq_getElem_of_lt _ _ _ hklt]
        exact List.getElem_mem hklt
      rw [findActiveRandomPass] at heq
      by_cases hlive : live ((q :: rest).getD (choices t % (q :: rest).length) (0, ⟨""⟩)).2
      · simp only [hlive, if_true, Option.some.injEq, Prod.mk.injEq] at heq
        obtain ⟨h1, h2, h3⟩ := heq
        subst h3
        exact ⟨hlive, hmem _ hcmem, h1.symm⟩
      · simp only [hlive, Bool.false_eq_true, if_false] at heq
        have hlen2 : ((q :: rest).eraseIdx (choices t % (q :: rest).length)).length
            ≤ N := by
          rw [List.length_eraseIdx_of_lt hklt]
          simp only [List.length_cons] at hlen ⊢
          omega
        have hmem2 : ∀ p ∈ (q :: rest).eraseIdx (choices t % (q :: rest).length),
            p.2 ∈ servers := fun p hp => hmem p (List.mem_of_mem_eraseIdx hp)
        exact ih _ (t + 1) r orig srv hlen2 hmem2 heq

theorem indexOf_first_occurrence (l : List Server) (a : Server) :
    ∀ j (hj : j < l.length), j < l.indexOf a → l[j] ≠ a := by
  induction l with
  | nil => intro j hj; simp at hj
  | cons b rest ih =>
    intro j hj hlt
    rw [List.indexOf_cons] at hlt
    by_cases hb : b == a
    · rw [hb] at hlt
      simp at hlt
    · rw [Bool.not_eq_true] at hb
      rw [hb] at hlt
      simp only [cond_false] at hlt
      cases j with
      | zero =>
        simpa using fun he => by simp [he] at hb
      | succ j2 =>
        simp only [List.getElem_cons_succ]
        exact ih j2 (by simpa using hj) (by omega)

/-! Helper lemmas about the outer retry loops. -/

theorem find_active_server_exhaust (live : Nat → Bool) (n s : Nat) (fuel : Nat)
    (hf : 1 ≤ fuel) :
    find_active_server live n s true fuel =
      some (match (findActiveServerPass live n s).1 with
        | some i => .ok i
        | none => .error .serverPoolExhausted) := by
  cases fuel with
  | zero => omega
  | succ f =>
    rw [find_active_server]
    cases h : (findActiveServerPass live n s).1 <;> simp [h]

theorem find_active_random_server_exhaust (choices : Nat → Nat)
    (live : Server → Bool) (servers : List Server) (fuel : Nat) (hf : 1 ≤ fuel) :
    find_active_random_server choices live servers true fuel =
      some (match (findActiveRandomPass choices live servers 0 servers.enum).1 with
        | some rc => .ok rc.1
        | none => .error .serverPoolExhausted) := by
  cases fuel with
  | zero => omega
  | succ f =>
    rw [find_active_random_server]
    cases h : (findActiveRandomPass choices live servers 0 servers.enum).1 <;> simp [h]

theorem find_active_server_dead_none (live : Nat → Bool) (n s : Nat) (h : s ≤ n)
    (hdead : ∀ i, i < n → live i = false) :
    ∀ fuel, find_active_server live n s false fuel = none := by
  have hpass : (findActiveServerPass live n s).1 = none := by
    rw [findActiveServerPass_eq, probeList_fst, List.find?_eq_none]
    intro i hi
    have hlt : i < n := (mem_circularOrder n s i h).mp hi
    simp [hdead i hlt]
  intro fuel
  induction fuel with
  | zero => rw [find_active_server]
  | succ f ihf =>
    rw [find_active_server, hpass]
    simpa using ihf

theorem find_active_random_server_dead_none (live : Server → Bool)
    (servers : List Server) (hdead : ∀ srv ∈ servers, live srv = false) :
    ∀ (fuel : Nat) (choices : Nat → Nat),
      find_active_random_server choices live servers false fuel = none := by
  intro fuel
  induction fuel with
  | zero => intro choices; rw [find_active_random_server]
  | succ f ih =>
    intro choices
    rw [find_active_random_server]
    have hmem : ∀ p ∈ servers.enum, live p.2 = false := by
      intro p hp
      refine hdead p.2 ?_
      rw [← List.enum_map_snd servers]
      exact List.mem_map_of_mem Prod.snd hp
    have h1 := (findActiveRandomPass_dead choices live servers servers.enum.length
      servers.enum 0 le_rfl hmem).1
    rw [h1]
    simpa using ih (fun k => choices (k + servers.length))

theorem find_active_random_server_ok (live : Server → Bool) (servers : List Server) :
    ∀ (fuel : Nat) (choices : Nat → Nat) (exhaust : Bool) (r : Nat),
      find_active_random_server choices live servers exhaust fuel = some (.ok r) →
      r < servers.length ∧ live (servers.getD r ⟨""⟩) = true ∧
        ∀ j, j < r → servers.getD j ⟨""⟩ ≠ servers.getD r ⟨""⟩ := by
  intro fuel
  induction fuel with
  | zero =>
    intro choices exhaust r heq
    rw [find_active_random_server] at heq
    exact absurd heq (by simp)
  | succ f ih =>
    intro choices exhaust r heq
    rw [find_active_random_server] at heq
    cases hp : (findActiveRandomPass choices live servers 0 servers.enum).1 with
    | some rc =>
      rw [hp] at heq
      simp only [Option.some.injEq, Except.ok.injEq] at heq
      obtain ⟨r2, orig, srv⟩ := rc
      simp only at heq
      subst heq
      have hmem : ∀ p ∈ servers.enum, p.2 ∈ servers := by
        intro p hpm
        rw [← List.enum_map_snd servers]
        exact List.mem_map_of_mem Prod.snd hpm
      obtain ⟨hlive, hsm, hr⟩ := findActiveRandomPass_some_spec choices live servers
        servers.enum.length servers.enum 0 r2 orig srv le_rfl hmem hp
      subst hr
      have hrlt : List.indexOf srv servers < servers.length :=
        List.indexOf_lt_length.mpr hsm
      have hget : servers.getD (List.indexOf srv servers) ⟨""⟩ = srv := by
        rw [getD_eq_getElem_of_lt _ _ _ hrlt]
        exact List.getElem_indexOf hrlt
      refine ⟨hrlt, by rw [hget]; exact hlive, ?_⟩
      intro j hj
      have hjlt : j < servers.length := Nat.lt_trans hj hrlt
      rw [getD_eq_getElem_of_lt _ _ _ hjlt, hget]
      exact indexOf_first_occurrence servers srv j hjlt hj
    | none =>
      rw [hp] at heq
      cases exhaust with
      | true => simp at heq
      | false =>
        simp only [Bool.false_eq_true, if_false] at heq
        exact ih (fun k => choices (k + servers.length)) false r heq

/-! Branch evaluation lemmas for get_server. -/

theorem get_server_first_active (st : ServerPoolState) (pool : ServerPool)
    (liveS : Server → Bool) (choices : Nat → Nat) (r fuel : Nat)
    (hne : st.servers ≠ []) (hstrat : pool.strategy = .first)
    (ha : pool.active = true) :
    st.get_server pool liveS choices r fuel =
      match find_active_server (fun i => liveS (st.servers.getD i ⟨""⟩))
          st.servers.length 0 pool.exhaust fuel with
      | none => none
      | some (.error e) => some (.error e)
      | some (.ok i) =>
        match pyGet st.servers i with
        | .ok srv => some (.ok (srv, { st with last_used_server := i }))
        | .error e => some (.error e) := by
  unfold ServerPoolState.get_server
  rw [if_neg hne, hstrat, ha]
  rfl

theorem get_server_rr_active (st : ServerPoolState) (pool : ServerPool)
    (liveS : Server → Bool) (choices : Nat → Nat) (r fuel : Nat)
    (hne : st.servers ≠ []) (hstrat : pool.strategy = .roundRobin)
    (ha : pool.active = true) :
    st.get_server pool liveS choices r fuel =
      match find_active_server (fun i => liveS (st.servers.getD i ⟨""⟩))
          st.servers.length (st.last_used_server + 1) pool.exhaust fuel with
      | none => none
      | some (.error e) => some (.error e)
      | some (.ok i) =>
        match pyGet st.servers i with
        | .ok srv => some (.ok (srv, { st with last_used_server := i }))
        | .error e => some (.error e) := by
  unfold ServerPoolState.get_server
  rw [if_neg hne, hstrat, ha]
  rfl

theorem get_server_random_active (st : ServerPoolState) (pool : ServerPool)
    (liveS : Server → Bool) (choices : Nat → Nat) (r fuel : Nat)
    (hne : st.servers ≠ []) (hstrat : pool.strategy = .random)
    (ha : pool.active = true) :
    st.get_server pool liveS choices r fuel =
      match find_active_random_server choices liveS st.servers pool.exhaust fuel with
      | none => none
      | some (.error e) => some (.error e)
      | some (.ok i) =>
        match pyGet st.servers i with
        | .ok srv => some (.ok (srv, { st with last_used_server := i }))
        | .error e => some (.error e) := by
  unfold ServerPoolState.get_server
  rw [if_neg hne, hstrat, ha]
  rfl

theorem get_server_random_inactive (st : ServerPoolState) (pool : ServerPool)
    (liveS : Server → Bool) (choices : Nat → Nat) (r fuel : Nat)
    (hne : st.servers ≠ []) (hstrat : pool.strategy = .random)
    (ha : pool.active = false) :
    st.get_server pool liveS choices r fuel =
      match randintN r (st.servers.length : Int) with
      | .ok i =>
        match pyGet st.servers i with
        | .ok srv => some (.ok (srv, { st with last_used_server := i }))
        | .error e => some (.error e)
      | .error e => some (.error e) := by
  unfold ServerPoolState.get_server
  rw [if_neg hne, hstrat, ha]
  rfl

theorem get_server_first_inactive (st : ServerPoolState) (pool : ServerPool)
    (liveS : Server → Bool) (choices : Nat → Nat) (r fuel : Nat)
    (hne : st.servers ≠ []) (hstrat : pool.strategy = .first)
    (ha : pool.active = false) :
    st.get_server pool liveS choices r fuel =
      match pyGet st.servers 0 with
      | .ok srv => some (.ok (srv, { st with last_used_server := 0 }))
      | .error e => some (.error e) := by
  unfold ServerPoolState.get_server
  rw [if_neg hne, hstrat, ha]
  rfl

theorem get_server_rr_inactive (st : ServerPoolState) (pool : ServerPool)
    (liveS : Server → Bool) (choices : Nat → Nat) (r fuel : Nat)
    (hne : st.servers ≠ []) (hstrat : pool.strategy = .roundRobin)
    (ha : pool.active = false) (hc : st.last_used_server < st.servers.length) :
    st.get_server pool liveS choices r fuel =
      some (.ok
        (st.servers.getD ((st.last_used_server + 1) % st.servers.length) ⟨""⟩,
          { st with last_used_server :=
              (st.last_used_server + 1) % st.servers.length })) := by
  unfold ServerPoolState.get_server
  rw [if_neg hne, hstrat, ha]
  have hlen : 0 < st.servers.length := List.length_pos.mpr hne
  have hidx : (if st.last_used_server + 1 < st.servers.length
      then st.last_used_server + 1 else 0) =
      (st.last_used_server + 1) % st.servers.length := by
    by_cases h2 : st.last_used_server + 1 < st.servers.length
    · rw [if_pos h2, Nat.mod_eq_of_lt h2]
    · rw [if_neg h2]
      have h3 : st.last_used_server + 1 = st.servers.length := by omega
      rw [h3, Nat.mod_self]
  simp only [Bool.false_eq_true, if_false, hidx]
  have hmlt : (st.last_used_server + 1) % st.servers.length < st.servers.length :=
    Nat.mod_lt _ hlen
  unfold pyGet
  rw [dif_pos hmlt]
  simp only [getD_eq_getElem_of_lt _ _ _ hmlt]
  rfl

/-- C1 — Cursor-index validity fails in the code: the RANDOM / active=False
branch of get_server draws randint(0, len(self.servers)) with an inclusive
upper bound, so the oracle value len(self.servers) makes last_used_server equal
to len(self.servers) — one past the end — and the subsequent
self.servers[self.last_used_server] raises IndexError. With a one-server
snapshot and oracle value 1 the call crashes instead of returning a server,
refuting the claimed invariant that the RANDOM / active=False assignment always
produces an index strictly below len(snapshot); every value of the real
randint(0, 1) is realised, the oracle 1 corresponds to the draw 1. -/
theorem get_server_random_inactive_index_error :
    ServerPoolState.get_server ⟨[⟨"a"⟩], .random, 0⟩
      ⟨[⟨"a"⟩], .random, false, false, []⟩ (fun _ => true) (fun _ => 0) 1 1 =
      some (.error .indexError) := by
  rfl

theorem probeList_dead_trace (live : Nat → Bool) :
    ∀ l : List Nat, (∀ i ∈ l, live i = false) → (probeList live l).2 = l := by
  intro l
  induction l with
  | nil => intro _; simp [probeList]
  | cons a rest ih =>
    intro hd
    have ha : live a = false := hd a (by simp)
    simp [probeList, ha, ih (fun i hi => hd i (by simp [hi]))]

/-- C3 — Exhaustion termination: with active=True and exhaust=True, every
get_server call on a sane state (nonempty snapshot, in-range cursor, known
strategy) returns within one scan pass: it yields either a live server or the
LDAPServerPoolExhaustedError, for all three strategies (conjunct 1); a failed
circular pass probes every index of [0, n) exactly once (conjunct 2) and a
failed random pass pops every snapshot element exactly once (conjunct 3); and
with exhaust=False, when no endpoint ever reports live, get_server never
returns no matter how much fuel the retry loop is given (conjunct 4). -/
theorem get_server_exhaustion_termination :
    (∀ (st : ServerPoolState) (pool : ServerPool) (liveS : Server → Bool)
        (choices : Nat → Nat) (r fuel : Nat),
      pool.active = true → pool.exhaust = true → 1 ≤ fuel → st.servers ≠ [] →
      st.last_used_server < st.servers.length → pool.strategy ≠ .invalid →
      ∃ res, st.get_server pool liveS choices r fuel = some res ∧
        (res = .error .serverPoolExhausted ∨
          ∃ srv st1, res = .ok (srv, st1) ∧ liveS srv = true)) ∧
    (∀ (live : Nat → Bool) (n s : Nat), s ≤ n → (∀ i, i < n → live i = false) →
      List.Perm (findActiveServerPass live n s).2 (List.range n)) ∧
    (∀ (choices : Nat → Nat) (live : Server → Bool) (servers : List Server),
      (∀ srv ∈ servers, live srv = false) →
      List.Perm (findActiveRandomPass choices live servers 0 servers.enum).2
        servers) ∧
    (∀ (st : ServerPoolState) (pool : ServerPool) (liveS : Server → Bool)
        (choices : Nat → Nat) (r fuel : Nat),
      pool.active = true → pool.exhaust = false → st.servers ≠ [] →
      st.last_used_server < st.servers.length → pool.strategy ≠ .invalid →
      (∀ srv ∈ st.servers, liveS srv = false) →
      st.get_server pool liveS choices r fuel = none) := by
  refine ⟨?_, ?_, ?_, ?_⟩
  · -- termination with exhaust=True
    intro st pool liveS choices r fuel ha hx hf hne hc hsv
    have hfirst : ∀ s : Nat, s ≤ st.servers.length →
        (match find_active_server (fun i => liveS (st.servers.getD i ⟨""⟩))
            st.servers.length s true fuel with
          | none => none
          | some (.error e) => some (.error e)
          | some (.ok i) =>
            match pyGet st.servers i with
            | .ok srv => some (.ok (srv, { st with last_used_server := i }))
            | .error e => some (.error e)) = st.get_server pool liveS choices r fuel →
        ∃ res, st.get_server pool liveS choices r fuel = some res ∧
          (res = .error .serverPoolExhausted ∨
            ∃ srv st1, res = .ok (srv, st1) ∧ liveS srv = true) := by
      intro s hs hbr
      rw [find_active_server_exhaust _ _ _ fuel hf] at hbr
      cases hp : (findActiveServerPass (fun i => liveS (st.servers.getD i ⟨""⟩))
          st.servers.length s).1 with
      | none =>
        rw [hp] at hbr
        refine ⟨.error .serverPoolExhausted, ?_, Or.inl rfl⟩
        rw [← hbr]
      | some i =>
        rw [hp] at hbr
        have hfind : (circularOrder st.servers.length s).find?
            (fun i => liveS (st.servers.getD i ⟨""⟩)) = some i := by
          rw [← probeList_fst, ← findActiveServerPass_eq]
          exact hp
        have hilt : i < st.servers.length :=
          (mem_circularOrder st.servers.length s i hs).mp
            (List.mem_of_find?_eq_some hfind)
        have hlive0 := @List.find?_some Nat
          (fun j => liveS (st.servers.getD j ⟨""⟩)) i
          (circularOrder st.servers.length s) hfind
        have hlive : liveS (st.servers.getD i ⟨""⟩) = true := hlive0
        have hbr2 : st.get_server pool liveS choices r fuel =
            some (.ok (st.servers.get ⟨i, hilt⟩,
              { st with last_used_server := i })) := by
          rw [← hbr]
          show (match pyGet st.servers i with
            | Except.ok srv =>
              some (Except.ok (srv, { st with last_used_server := i }))
            | Except.error e => some (Except.error e)) = _
          rw [show pyGet st.servers i = .ok (st.servers.get ⟨i, hilt⟩)
            from dif_pos hilt]
        refine ⟨_, hbr2, Or.inr ⟨_, _, rfl, ?_⟩⟩
        rw [getD_eq_getElem_of_lt _ _ _ hilt] at hlive
        exact hlive
    cases hstrat : pool.strategy with
    | invalid => exact absurd hstrat hsv
    | first =>
      refine hfirst 0 (Nat.zero_le _) ?_
      rw [get_server_first_active st pool liveS choices r fuel hne hstrat ha, hx]
    | roundRobin =>
      refine hfirst (st.last_used_server + 1) (by omega) ?_
      rw [get_server_rr_active st pool liveS choices r fuel hne hstrat ha, hx]
    | random =>
      cases hp : (findActiveRandomPass choices liveS st.servers 0
          st.servers.enum).1 with
      | none =>
        have hv : st.get_server pool liveS choices r fuel =
            some (.error .serverPoolExhausted) := by
          rw [get_server_random_active st pool liveS choices r fuel hne hstrat ha,
            hx, find_active_random_server_exhaust _ _ _ fuel hf, hp]
        exact ⟨_, hv, Or.inl rfl⟩
      | some rc =>
        have heq : find_active_random_server choices liveS st.servers true fuel =
            some (.ok rc.1) := by
          rw [find_active_random_server_exhaust _ _ _ fuel hf, hp]
        obtain ⟨hrlt, hlive, _⟩ :=
          find_active_random_server_ok liveS st.servers fuel choices true rc.1 heq
        have hv : st.get_server pool liveS choices r fuel =
            some (.ok (st.servers.get ⟨rc.1, hrlt⟩,
              { st with last_used_server := rc.1 })) := by
          rw [get_server_random_active st pool liveS choices r fuel hne hstrat ha,
            hx, heq]
          show (match pyGet st.servers rc.1 with
            | Except.ok srv =>
              some (Except.ok (srv, { st with last_used_server := rc.1 }))
            | Except.error e => some (Except.error e)) = _
          rw [show pyGet st.servers rc.1 = .ok (st.servers.get ⟨rc.1, hrlt⟩)
            from dif_pos hrlt]
        refine ⟨_, hv, Or.inr ⟨_, _, rfl, ?_⟩⟩
        rw [getD_eq_getElem_of_lt _ _ _ hrlt] at hlive
        exact hlive
  · -- a failed circular pass probes each index exactly once
    intro live n s hs hdead
    rw [findActiveServerPass_eq, probeList_dead_trace]
    · exact circularOrder_perm n s hs
    · intro i hi
      exact hdead i ((mem_circularOrder n s i hs).mp hi)
  · -- a failed random pass pops each element exactly once
    intro choices live servers hdead
    have hmem : ∀ p ∈ servers.enum, live p.2 = false := by
      intro p hp
      refine hdead p.2 ?_
      rw [← List.enum_map_snd servers]
      exact List.mem_map_of_mem Prod.snd hp
    have h := (findActiveRandomPass_dead choices live servers servers.enum.length
      servers.enum 0 le_rfl hmem).2
    rwa [List.enum_map_snd] at h
  · -- with exhaust=False and nothing live, the call never returns
    intro st pool liveS choices r fuel ha hx hne hc hsv hdead
    have hdx : ∀ i, i < st.servers.length →
        (fun i => liveS (st.servers.getD i ⟨""⟩)) i = false := by
      intro i hi
      simp only [getD_eq_getElem_of_lt _ _ _ hi]
      exact hdead _ (List.getElem_mem hi)
    cases hstrat : pool.strategy with
    | invalid => exact absurd hstrat hsv
    | first =>
      rw [get_server_first_active st pool liveS choices r fuel hne hstrat ha, hx]
      rw [find_active_server_dead_none _ _ 0 (Nat.zero_le _) hdx fuel]
    | roundRobin =>
      rw [get_server_rr_active st pool liveS choices r fuel hne hstrat ha, hx]
      rw [find_active_server_dead_none _ _ (st.last_used_server + 1) (by omega)
        hdx fuel]
    | random =>
      rw [get_server_random_active st pool liveS choices r fuel hne hstrat ha, hx]
      rw [find_active_random_server_dead_none liveS st.servers hdead fuel choices]

/-- Witness for C3: one dead server, FIRST strategy — with exhaust the call
returns the exhaustion error at fuel 1; without exhaust it does not return even
at fuel 5. -/
theorem get_server_exhaustion_termination_witness :
    (∃ res, ServerPoolState.get_server ⟨[⟨"a"⟩], .first, 0⟩
        ⟨[⟨"a"⟩], .first, true, true, []⟩ (fun _ => false) (fun _ => 0) 0 1 =
        some res ∧
        (res = .error .serverPoolExhausted ∨
          ∃ srv st1, res = .ok (srv, st1) ∧ (fun _ : Server => false) srv = true)) ∧
    ServerPoolState.get_server ⟨[⟨"a"⟩], .first, 0⟩
        ⟨[⟨"a"⟩], .first, true, false, []⟩ (fun _ => false) (fun _ => 0) 0 5 =
      none :=
  ⟨get_server_exhaustion_termination.1 ⟨[⟨"a"⟩], .first, 0⟩
      ⟨[⟨"a"⟩], .first, true, true, []⟩ (fun _ => false) (fun _ => 0) 0 1
      rfl rfl (by decide) (by decide) (by decide) (by decide),
    get_server_exhaustion_termination.2.2.2 ⟨[⟨"a"⟩], .first, 0⟩
      ⟨[⟨"a"⟩], .first, true, false, []⟩ (fun _ => false) (fun _ => 0) 0 5
      rfl rfl (by decide) (by decide) (by decide) (by decide)⟩

/-- C9 — Random-scan results are first-occurrence indices: whenever
find_active_random_server returns ok r, r is a valid snapshot index, the server
at r probes live, and no earlier snapshot entry equals it (r is the index of
the first equal occurrence, as produced by servers.index). The second conjunct
shows the divergence on duplicates: with snapshot [a, a] and the oracle popping
the element at working-copy position 1 (original position 1), the returned
index is 0 — the first equal occurrence — not the popped position. -/
theorem find_active_random_server_first_occurrence :
    (∀ (choices : Nat → Nat) (live : Server → Bool) (servers : List Server)
        (exhaust : Bool) (fuel r : Nat),
      find_active_random_server choices live servers exhaust fuel =
        some (.ok r) →
      r < servers.length ∧ live (servers.getD r ⟨""⟩) = true ∧
        ∀ j, j < r → servers.getD j ⟨""⟩ ≠ servers.getD r ⟨""⟩) ∧
    (findActiveRandomPass (fun _ => 1) (fun _ => true) [⟨"a"⟩, ⟨"a"⟩] 0
        [(0, ⟨"a"⟩), (1, ⟨"a"⟩)]).1 = some (0, 1, ⟨"a"⟩) := by
  constructor
  · intro choices live servers exhaust fuel r heq
    exact find_active_random_server_ok live servers fuel choices exhaust r heq
  · rw [findActiveRandomPass]
    norm_num [List.indexOf_cons_self]

/-- Witness for C9: a one-server pool where the scan returns index 0. -/
theorem find_active_random_server_first_occurrence_witness :
    find_active_random_server (fun _ => 0) (fun _ => true) [⟨"a"⟩] true 1 =
        some (.ok 0) ∧
    (0 < ([⟨"a"⟩] : List Server).length ∧
      (fun _ : Server => true) (([⟨"a"⟩] : List Server).getD 0 ⟨""⟩) = true ∧
      ∀ j, j < 0 → ([⟨"a"⟩] : List Server).getD j ⟨""⟩ ≠
        ([⟨"a"⟩] : List Server).getD 0 ⟨""⟩) := by
  have h : find_active_random_server (fun _ => 0) (fun _ => true) [⟨"a"⟩] true 1 =
      some (.ok 0) := by
    rw [find_active_random_server]
    rw [show ([⟨"a"⟩] : List Server).enum = [(0, ⟨"a"⟩)] from rfl]
    rw [findActiveRandomPass]
    norm_num [List.indexOf_cons_self]
  exact ⟨h, find_active_random_server_first_occurrence.1 (fun _ => 0)
    (fun _ => true) [⟨"a"⟩] true 1 0 h⟩

theorem range_map_mod (n s : Nat) (hs : s ≤ n) :
    (List.range n).map (fun k => (s + k) % n) = circularOrder n s := by
  unfold circularOrder
  have hsplit : List.range n = List.range' 0 (n - s) ++ List.range' (n - s) s := by
    have h3 := List.range'_append_1 0 (n - s) s
    rw [Nat.zero_add, Nat.add_sub_cancel' hs] at h3
    rw [List.range_eq_range' n, ← h3]
  rw [hsplit, List.map_append]
  congr 1
  · have h1 : ∀ k ∈ List.range' 0 (n - s), (fun k => (s + k) % n) k =
        (fun k => s + k) k := by
      intro k hk
      rw [List.mem_range'_1] at hk
      exact Nat.mod_eq_of_lt (by omega)
    rw [List.map_congr_left h1]
    have h2 := List.map_add_range' s 0 (n - s) 1
    simp only [Nat.add_zero] at h2
    exact h2
  · rw [List.range'_eq_map_range (n - s) s, List.map_map]
    rw [List.range_eq_range' s]
    have h2 : ∀ j ∈ List.range' 0 s,
        ((fun k => (s + k) % n) ∘ (fun j => (n - s) + j)) j = j := by
      intro j hj
      rw [List.mem_range'_1] at hj
      simp only [Function.comp_apply]
      have h4 : s + ((n - s) + j) = n + j := by omega
      rw [h4, Nat.add_mod_left]
      exact Nat.mod_eq_of_lt (by omega)
    rw [List.map_congr_left h2, List.map_id']

theorem getServerTrace_rr_inactive (pool : ServerPool) (liveS : Server → Bool)
    (choices : Nat → Nat) (r fuel : Nat) (servers : List Server)
    (sc : PoolingStrategy) (hstrat : pool.strategy = .roundRobin)
    (ha : pool.active = false) (hne : servers ≠ []) :
    ∀ (m c : Nat), c < servers.length →
      getServerTrace pool liveS choices r fuel m ⟨servers, sc, c⟩ =
        some ((List.range m).map
            (fun k => servers.getD ((c + 1 + k) % servers.length) ⟨""⟩),
          ⟨servers, sc, (c + m) % servers.length⟩) := by
  intro m
  induction m with
  | zero =>
    intro c hc
    rw [getServerTrace]
    simp [Nat.mod_eq_of_lt hc]
  | succ m2 ih =>
    intro c hc
    rw [getServerTrace]
    rw [get_server_rr_inactive ⟨servers, sc, c⟩ pool liveS choices r fuel hne
      hstrat ha hc]
    dsimp only
    have hlen : 0 < servers.length := List.length_pos.mpr hne
    have hc1 : (c + 1) % servers.length < servers.length := Nat.mod_lt _ hlen
    rw [ih ((c + 1) % servers.length) hc1]
    simp only [Option.some.injEq, Prod.mk.injEq, ServerPoolState.mk.injEq,
      true_and, and_true]
    refine ⟨?_, ?_⟩
    · rw [List.range_succ_eq_map, List.map_cons, List.map_map]
      refine List.cons_eq_cons.mpr ⟨by rw [Nat.add_zero], ?_⟩
      refine List.map_congr_left ?_
      intro k _
      simp only [Function.comp_apply]
      have h5 : (c + 1) % servers.length + 1 + k =
          (c + 1) % servers.length + (1 + k) := by omega
      have h6 : c + 1 + (1 + k) = c + 1 + (k + 1) := by omega
      rw [h5, Nat.mod_add_mod, h6]
    · rw [Nat.mod_add_mod]
      congr 1
      omega

/-- C6 — Round-robin cycle: with strategy ROUND_ROBIN and active=False, from
any cursor c < N over a snapshot of N ≥ 1 servers, N consecutive get_server
calls return the servers at indices (c+1) mod N, (c+2) mod N, ..., (c+N) mod N
— the snapshot in index order starting right after the initial cursor, each
index exactly once (the index sequence is a permutation of [0, N)) — and the
cursor returns to c, so the next N calls repeat the identical sequence:
2N calls produce that list twice. -/
theorem round_robin_cycle (pool : ServerPool) (liveS : Server → Bool)
    (choices : Nat → Nat) (r fuel : Nat) (servers : List Server)
    (sc : PoolingStrategy) (c : Nat)
    (hstrat : pool.strategy = .roundRobin) (ha : pool.active = false)
    (hn : 1 ≤ servers.length) (hc : c < servers.length) :
    getServerTrace pool liveS choices r fuel servers.length ⟨servers, sc, c⟩ =
      some ((List.range servers.length).map
          (fun k => servers.getD ((c + 1 + k) % servers.length) ⟨""⟩),
        ⟨servers, sc, c⟩) ∧
    List.Perm ((List.range servers.length).map
        (fun k => (c + 1 + k) % servers.length)) (List.range servers.length) ∧
    getServerTrace pool liveS choices r fuel (2 * servers.length)
        ⟨servers, sc, c⟩ =
      some ((List.range servers.length).map
            (fun k => servers.getD ((c + 1 + k) % servers.length) ⟨""⟩) ++
          (List.range servers.length).map
            (fun k => servers.getD ((c + 1 + k) % servers.length) ⟨""⟩),
        ⟨servers, sc, c⟩) := by
  have hne : servers ≠ [] := by
    intro h
    rw [h] at hn
    simp at hn
  have hcycle : (c + servers.length) % servers.length = c := by
    rw [Nat.add_mod_right]
    exact Nat.mod_eq_of_lt hc
  refine ⟨?_, ?_, ?_⟩
  · rw [getServerTrace_rr_inactive pool liveS choices r fuel servers sc hstrat ha
      hne servers.length c hc, hcycle]
  · have hmap : (List.range servers.length).map
        (fun k => (c + 1 + k) % servers.length) =
        circularOrder servers.length (c + 1) := by
      have := range_map_mod servers.length (c + 1) (by omega)
      rw [← this]
    rw [hmap]
    exact circularOrder_perm servers.length (c + 1) (by omega)
  · rw [getServerTrace_rr_inactive pool liveS choices r fuel servers sc hstrat ha
      hne (2 * servers.length) c hc]
    have hcyc2 : (c + 2 * servers.length) % servers.length = c := by
      rw [show c + 2 * servers.length = c + servers.length + servers.length
        from by omega, Nat.add_mod_right, Nat.add_mod_right]
      exact Nat.mod_eq_of_lt hc
    rw [hcyc2]
    have hsplit : (List.range (2 * servers.length)).map
        (fun k => servers.getD ((c + 1 + k) % servers.length) ⟨""⟩) =
        (List.range servers.length).map
          (fun k => servers.getD ((c + 1 + k) % servers.length) ⟨""⟩) ++
        (List.range servers.length).map
          (fun k => servers.getD ((c + 1 + k) % servers.length) ⟨""⟩) := by
      rw [show 2 * servers.length = servers.length + servers.length from by omega,
        List.range_add, List.map_append, List.map_map]
      congr 1
      refine List.map_congr_left ?_
      intro k _
      simp only [Function.comp_apply]
      have h5 : c + 1 + (servers.length + k) = servers.length + (c + 1 + k) := by
        omega
      rw [h5, Nat.add_mod_left]
    rw [hsplit]

/-- Witness for C6 with a one-server snapshot and initial cursor 0. -/
theorem round_robin_cycle_witness :
    0 < ([⟨"a"⟩] : List Server).length ∧
    (getServerTrace ⟨[], .roundRobin, false, false, []⟩ (fun _ => true)
        (fun _ => 0) 0 0 ([⟨"a"⟩] : List Server).length
        ⟨[⟨"a"⟩], .roundRobin, 0⟩ =
        some ((List.range ([⟨"a"⟩] : List Server).length).map
            (fun k => ([⟨"a"⟩] : List Server).getD
              ((0 + 1 + k) % ([⟨"a"⟩] : List Server).length) ⟨""⟩),
          ⟨[⟨"a"⟩], .roundRobin, 0⟩) ∧
      List.Perm ((List.range ([⟨"a"⟩] : List Server).length).map
          (fun k => (0 + 1 + k) % ([⟨"a"⟩] : List Server).length))
        (List.range ([⟨"a"⟩] : List Server).length) ∧
      getServerTrace ⟨[], .roundRobin, false, false, []⟩ (fun _ => true)
          (fun _ => 0) 0 0 (2 * ([⟨"a"⟩] : List Server).length)
          ⟨[⟨"a"⟩], .roundRobin, 0⟩ =
        some ((List.range ([⟨"a"⟩] : List Server).length).map
              (fun k => ([⟨"a"⟩] : List Server).getD
                ((0 + 1 + k) % ([⟨"a"⟩] : List Server).length) ⟨""⟩) ++
            (List.range ([⟨"a"⟩] : List Server).length).map
              (fun k => ([⟨"a"⟩] : List Server).getD
                ((0 + 1 + k) % ([⟨"a"⟩] : List Server).length) ⟨""⟩),
          ⟨[⟨"a"⟩], .roundRobin, 0⟩)) :=
  ⟨by decide, round_robin_cycle ⟨[], .roundRobin, false, false, []⟩
    (fun _ => true) (fun _ => 0) 0 0 [⟨"a"⟩] .roundRobin 0 rfl rfl
    (by decide) (by decide)⟩

/-! Helper lemmas about the registry operations. -/

theorem appendSeq_valid :
    ∀ (l : List AddElem) (acc : List Server), (∀ e ∈ l, e.toServer ≠ none) →
      appendSeq acc l = (acc ++ l.filterMap AddElem.toServer, none) := by
  intro l
  induction l with
  | nil => intro acc _; simp [appendSeq]
  | cons e rest ih =>
    intro acc hv
    cases e with
    | server s =>
      rw [appendSeq, ih (acc ++ [s]) (fun x hx => hv x (by simp [hx]))]
      simp [AddElem.toServer, List.filterMap_cons]
    | str a =>
      rw [appendSeq, ih (acc ++ [Server.mk a]) (fun x hx => hv x (by simp [hx]))]
      simp [AddElem.toServer, List.filterMap_cons]
    | invalid =>
      have hcontra := hv .invalid (by simp)
      simp [AddElem.toServer] at hcontra

theorem appendSeq_invalid :
    ∀ (l1 l2 : List AddElem) (acc : List Server), (∀ e ∈ l1, e.toServer ≠ none) →
      appendSeq acc (l1 ++ .invalid :: l2) =
        (acc ++ l1.filterMap AddElem.toServer, some .serverPoolError) := by
  intro l1
  induction l1 with
  | nil => intro l2 acc _; simp [appendSeq]
  | cons e rest ih =>
    intro l2 acc hv
    cases e with
    | server s =>
      rw [List.cons_append, appendSeq,
        ih l2 (acc ++ [s]) (fun x hx => hv x (by simp [hx]))]
      simp [AddElem.toServer, List.filterMap_cons]
    | str a =>
      rw [List.cons_append, appendSeq,
        ih l2 (acc ++ [Server.mk a]) (fun x hx => hv x (by simp [hx]))]
      simp [AddElem.toServer, List.filterMap_cons]
    | invalid =>
      have hcontra := hv .invalid (by simp)
      simp [AddElem.toServer] at hcontra

theorem refresh_nonempty (st : ServerPoolState) (poolServers : List Server)
    (r : Nat) (h : poolServers ≠ []) :
    st.refresh poolServers r =
      ({ st with servers := poolServers, last_used_server := r % poolServers.length },
        none) := by
  unfold ServerPoolState.refresh randintN
  have hlen : 0 < poolServers.length := List.length_pos.mpr h
  rw [if_neg (by omega : ¬((poolServers.length : Int) - 1 < 0))]
  have htn : ((poolServers.length : Int) - 1).toNat + 1 = poolServers.length := by
    omega
  rw [htn]

theorem refresh_empty (st : ServerPoolState) (r : Nat) :
    st.refresh [] r = ({ st with servers := [] }, some .valueError) := by
  rfl

theorem broadcastRefresh_nonempty (poolServers : List Server) (rs : Nat → Nat)
    (h : poolServers ≠ []) :
    ∀ (states : List (Nat × ServerPoolState)) (t : Nat),
      (broadcastRefresh poolServers rs t states).2 = none ∧
      ∀ e ∈ (broadcastRefresh poolServers rs t states).1,
        e.2.servers = poolServers := by
  intro states
  induction states with
  | nil => intro t; simp [broadcastRefresh]
  | cons q rest ih =>
    intro t
    obtain ⟨c, st⟩ := q
    rw [broadcastRefresh, refresh_nonempty st poolServers (rs t) h]
    refine ⟨(ih (t + 1)).1, ?_⟩
    intro e he
    rw [List.mem_cons] at he
    cases he with
    | inl h1 => rw [h1]
    | inr h2 => exact (ih (t + 1)).2 e h2

/-- C4 counterexample — atomicity fails in the code: add of the sequence
[Server "a", invalid] on an empty registry raises LDAPServerPoolError yet
leaves the endpoint list mutated to [Server "a"]; and remove of the last
server from a registry with a registered cursor applies the removal, then the
refresh broadcast raises ValueError (randint over the emptied list), so the
call raises with the endpoint list already changed. -/
theorem add_remove_not_atomic_example :
    (ServerPool.add ⟨[], .roundRobin, true, false, []⟩ (fun _ => 0)
        (.seq [.server ⟨"a"⟩, .invalid])).2 = some .serverPoolError ∧
    (ServerPool.add ⟨[], .roundRobin, true, false, []⟩ (fun _ => 0)
        (.seq [.server ⟨"a"⟩, .invalid])).1.servers = [⟨"a"⟩] ∧
    ([⟨"a"⟩] : List Server) ≠ [] ∧
    (ServerPool.remove ⟨[⟨"a"⟩], .roundRobin, true, false,
        [(0, ⟨[⟨"a"⟩], .roundRobin, 0⟩)]⟩ (fun _ => 0) ⟨"a"⟩).2 =
      some .valueError ∧
    (ServerPool.remove ⟨[⟨"a"⟩], .roundRobin, true, false,
        [(0, ⟨[⟨"a"⟩], .roundRobin, 0⟩)]⟩ (fun _ => 0) ⟨"a"⟩).1.servers = [] := by
  decide

/-- C4 amended — what the mutations actually guarantee: remove of an absent
server raises with the whole pool unchanged; remove of a present server always
removes the first equal occurrence, and when servers remain the broadcast
succeeds and every registered cursor is refreshed to the new list; add of a
non-Server, non-string, non-sequence argument raises with the pool unchanged;
add of a single Server (skipped when an equal server is present, appended
otherwise) or of a single string address always succeeds and broadcasts a
refresh to every registered cursor; add of a fully valid sequence appends
every element and, when the resulting list is nonempty, broadcasts a refresh
to every registered cursor; but add of
a sequence containing an invalid element appends the valid elements preceding
the first invalid one, raises, and performs no refresh broadcast — the
mutation is partial, not rolled back. -/
theorem add_remove_mutation_spec :
    (∀ (pool : ServerPool) (rs : Nat → Nat) (s : Server), s ∉ pool.servers →
      pool.remove rs s = (pool, some .serverPoolError)) ∧
    (∀ (pool : ServerPool) (rs : Nat → Nat) (s : Server), s ∈ pool.servers →
      (pool.remove rs s).1.servers = pool.servers.erase s ∧
      (pool.servers.erase s ≠ [] →
        (pool.remove rs s).2 = none ∧
        ∀ e ∈ (pool.remove rs s).1.pool_states,
          e.2.servers = pool.servers.erase s)) ∧
    (∀ (pool : ServerPool) (rs : Nat → Nat),
      pool.add rs .other = (pool, some .serverPoolError)) ∧
    (∀ (pool : ServerPool) (rs : Nat → Nat) (l : List AddElem),
      (∀ e ∈ l, e.toServer ≠ none) →
      (pool.add rs (.seq l)).1.servers =
        pool.servers ++ l.filterMap AddElem.toServer ∧
      (pool.servers ++ l.filterMap AddElem.toServer ≠ [] →
        (pool.add rs (.seq l)).2 = none ∧
        ∀ e ∈ (pool.add rs (.seq l)).1.pool_states,
          e.2.servers = pool.servers ++ l.filterMap AddElem.toServer)) ∧
    (∀ (pool : ServerPool) (rs : Nat → Nat) (l1 l2 : List AddElem),
      (∀ e ∈ l1, e.toServer ≠ none) →
      pool.add rs (.seq (l1 ++ .invalid :: l2)) =
        ({ pool with servers := pool.servers ++ l1.filterMap AddElem.toServer },
          some .serverPoolError)) ∧
    (∀ (pool : ServerPool) (rs : Nat → Nat) (s : Server), s ∈ pool.servers →
      (pool.add rs (.server s)).1.servers = pool.servers ∧
      (pool.add rs (.server s)).2 = none ∧
      ∀ e ∈ (pool.add rs (.server s)).1.pool_states,
        e.2.servers = pool.servers) ∧
    (∀ (pool : ServerPool) (rs : Nat → Nat) (s : Server), s ∉ pool.servers →
      (pool.add rs (.server s)).1.servers = pool.servers ++ [s] ∧
      (pool.add rs (.server s)).2 = none ∧
      ∀ e ∈ (pool.add rs (.server s)).1.pool_states,
        e.2.servers = pool.servers ++ [s]) ∧
    (∀ (pool : ServerPool) (rs : Nat → Nat) (a : String),
      (pool.add rs (.str a)).1.servers = pool.servers ++ [⟨a⟩] ∧
      (pool.add rs (.str a)).2 = none ∧
      ∀ e ∈ (pool.add rs (.str a)).1.pool_states,
        e.2.servers = pool.servers ++ [⟨a⟩]) := by
  refine ⟨?_, ?_, ?_, ?_, ?_, ?_, ?_, ?_⟩
  · intro pool rs s hs
    unfold ServerPool.remove
    rw [if_neg hs]
  · intro pool rs s hs
    unfold ServerPool.remove
    rw [if_pos hs]
    unfold poolAfterMutation
    refine ⟨rfl, ?_⟩
    intro hne
    exact ⟨(broadcastRefresh_nonempty _ rs hne pool.pool_states 0).1,
      fun e he => (broadcastRefresh_nonempty _ rs hne pool.pool_states 0).2 e he⟩
  · intro pool rs
    rfl
  · intro pool rs l hl
    unfold ServerPool.add
    dsimp only
    rw [appendSeq_valid l pool.servers hl]
    unfold poolAfterMutation
    refine ⟨rfl, ?_⟩
    intro hne
    exact ⟨(broadcastRefresh_nonempty _ rs hne pool.pool_states 0).1,
      fun e he => (broadcastRefresh_nonempty _ rs hne pool.pool_states 0).2 e he⟩
  · intro pool rs l1 l2 hl
    unfold ServerPool.add
    dsimp only
    rw [appendSeq_invalid l1 l2 pool.servers hl]
  · intro pool rs s hs
    have hne : pool.servers ≠ [] := List.ne_nil_of_mem hs
    unfold ServerPool.add
    dsimp only
    rw [if_pos hs]
    unfold poolAfterMutation
    exact ⟨rfl, (broadcastRefresh_nonempty _ rs hne pool.pool_states 0).1,
      fun e he => (broadcastRefresh_nonempty _ rs hne pool.pool_states 0).2 e he⟩
  · intro pool rs s hs
    have hne : pool.servers ++ [s] ≠ [] := by simp
    unfold ServerPool.add
    dsimp only
    rw [if_neg hs]
    unfold poolAfterMutation
    exact ⟨rfl, (broadcastRefresh_nonempty _ rs hne pool.pool_states 0).1,
      fun e he => (broadcastRefresh_nonempty _ rs hne pool.pool_states 0).2 e he⟩
  · intro pool rs a
    have hne : pool.servers ++ [Server.mk a] ≠ [] := by simp
    unfold ServerPool.add
    dsimp only
    unfold poolAfterMutation
    exact ⟨rfl, (broadcastRefresh_nonempty _ rs hne pool.pool_states 0).1,
      fun e he => (broadcastRefresh_nonempty _ rs hne pool.pool_states 0).2 e he⟩

/-- Witness for the C4 amended theorem: a remove of an absent server and a
partial sequence add on concrete pools. -/
theorem add_remove_mutation_spec_witness :
    (Server.mk "b" ∉ ([⟨"a"⟩] : List Server) ∧
      ServerPool.remove ⟨[⟨"a"⟩], .first, true, false, []⟩ (fun _ => 0) ⟨"b"⟩ =
        (⟨[⟨"a"⟩], .first, true, false, []⟩, some .serverPoolError)) ∧
    ServerPool.add ⟨[], .first, true, false, []⟩ (fun _ => 0)
        (.seq ([.server ⟨"a"⟩] ++ .invalid :: [])) =
      (⟨[⟨"a"⟩], .first, true, false, []⟩, some .serverPoolError) ∧
    ((ServerPool.add ⟨[⟨"a"⟩], .first, true, false,
          [(3, ⟨[⟨"a"⟩], .first, 0⟩)]⟩ (fun _ => 0) (.str "b")).1.servers =
        [⟨"a"⟩] ++ [⟨"b"⟩] ∧
      (ServerPool.add ⟨[⟨"a"⟩], .first, true, false,
          [(3, ⟨[⟨"a"⟩], .first, 0⟩)]⟩ (fun _ => 0) (.str "b")).2 = none ∧
      ∀ e ∈ (ServerPool.add ⟨[⟨"a"⟩], .first, true, false,
          [(3, ⟨[⟨"a"⟩], .first, 0⟩)]⟩ (fun _ => 0) (.str "b")).1.pool_states,
        e.2.servers = [⟨"a"⟩] ++ [⟨"b"⟩]) :=
  ⟨⟨by decide, add_remove_mutation_spec.1 ⟨[⟨"a"⟩], .first, true, false, []⟩
      (fun _ => 0) ⟨"b"⟩ (by decide)⟩,
    by
      have h := add_remove_mutation_spec.2.2.2.2.1
        ⟨[], .first, true, false, []⟩ (fun _ => 0) [.server ⟨"a"⟩] []
        (by decide)
      simpa [AddElem.toServer] using h,
    add_remove_mutation_spec.2.2.2.2.2.2.2 ⟨[⟨"a"⟩], .first, true, false,
      [(3, ⟨[⟨"a"⟩], .first, 0⟩)]⟩ (fun _ => 0) "b"⟩

/-- C5 counterexample — the failure kind is wrong: initialize on an empty
registry does fail and registers nothing, but the exception is Python's
ValueError, raised by randint(0, -1) inside ServerPoolState refresh, not the
pool-level LDAPServerPoolError (the error get_server raises for an empty
pool). -/
theorem initialize_empty_pool_error_kind :
    ServerPool.initialize ⟨[], .roundRobin, true, false, []⟩ 0 0 7 =
      (⟨[], .roundRobin, true, false, []⟩, some .valueError) ∧
    PyError.valueError ≠ PyError.serverPoolError := by
  decide

/-- C5 amended — initialize on a registry with zero endpoints always fails
with the ValueError raised by randint over the empty index range inside
refresh (not with a pool-level error), and leaves the pool — in particular its
cursor registry — unchanged: no cursor is registered for the connection. -/
theorem initialize_empty_pool_fails (pool : ServerPool) (r1 r2 c : Nat)
    (h : pool.servers = []) :
    pool.initialize r1 r2 c = (pool, some .valueError) := by
  unfold ServerPool.initialize ServerPoolState.init
  dsimp only
  rw [show ServerPoolState.refresh ⟨[], pool.strategy, 0⟩ pool.servers r1 =
    ((⟨pool.servers, pool.strategy, 0⟩ : ServerPoolState), some .valueError) from by
      rw [h]; rfl]

/-- Witness for the C5 amended theorem on a concrete empty pool. -/
theorem initialize_empty_pool_fails_witness :
    (⟨[], .first, true, false, []⟩ : ServerPool).servers = [] ∧
    ServerPool.initialize ⟨[], .first, true, false, []⟩ 1 2 5 =
      (⟨[], .first, true, false, []⟩, some .valueError) :=
  ⟨rfl, initialize_empty_pool_fails ⟨[], .first, true, false, []⟩ 1 2 5 rfl⟩

/-- C7 — Dedup asymmetry of add: a single Server argument is skipped when an
equal server is already present and appended when not, while a sequence
argument is appended element-by-element with no membership check at all — in
particular add of the one-element sequence [e] always appends e, so it creates
a duplicate exactly where add of the bare e would have been a no-op. -/
theorem add_dedup_asymmetry (pool : ServerPool) (e : Server) (rs : Nat → Nat)
    (l : List AddElem) (hl : ∀ x ∈ l, x.toServer ≠ none) :
    (e ∈ pool.servers → (pool.add rs (.server e)).1.servers = pool.servers) ∧
    (e ∉ pool.servers →
      (pool.add rs (.server e)).1.servers = pool.servers ++ [e]) ∧
    (pool.add rs (.seq l)).1.servers =
      pool.servers ++ l.filterMap AddElem.toServer ∧
    (pool.add rs (.seq [.server e])).1.servers = pool.servers ++ [e] := by
  refine ⟨?_, ?_, ?_, ?_⟩
  · intro he
    unfold ServerPool.add
    dsimp only
    rw [if_pos he]
    rfl
  · intro he
    unfold ServerPool.add
    dsimp only
    rw [if_neg he]
    rfl
  · unfold ServerPool.add
    dsimp only
    rw [appendSeq_valid l pool.servers hl]
    rfl
  · unfold ServerPool.add
    dsimp only
    rw [appendSeq_valid [.server e] pool.servers (by
      intro x hx
      rw [List.mem_singleton] at hx
      rw [hx]
      simp [AddElem.toServer])]
    rfl

/-- Witness for C7: pool [a], adding the already-present server a directly
versus as a one-element sequence. -/
theorem add_dedup_asymmetry_witness :
    (∀ x ∈ ([.server ⟨"b"⟩] : List AddElem), x.toServer ≠ none) ∧
    ((Server.mk "a" ∈ ([⟨"a"⟩] : List Server) →
      (ServerPool.add ⟨[⟨"a"⟩], .first, true, false, []⟩ (fun _ => 0)
        (.server ⟨"a"⟩)).1.servers = [⟨"a"⟩]) ∧
    (Server.mk "a" ∉ ([⟨"a"⟩] : List Server) →
      (ServerPool.add ⟨[⟨"a"⟩], .first, true, false, []⟩ (fun _ => 0)
        (.server ⟨"a"⟩)).1.servers = [⟨"a"⟩] ++ [⟨"a"⟩]) ∧
    (ServerPool.add ⟨[⟨"a"⟩], .first, true, false, []⟩ (fun _ => 0)
        (.seq [.server ⟨"b"⟩])).1.servers =
      [⟨"a"⟩] ++ ([.server ⟨"b"⟩] : List AddElem).filterMap AddElem.toServer ∧
    (ServerPool.add ⟨[⟨"a"⟩], .first, true, false, []⟩ (fun _ => 0)
        (.seq [.server ⟨"a"⟩])).1.servers = [⟨"a"⟩] ++ [⟨"a"⟩]) :=
  ⟨by decide, add_dedup_asymmetry ⟨[⟨"a"⟩], .first, true, false, []⟩ ⟨"a"⟩
    (fun _ => 0) [.server ⟨"b"⟩] (by decide)⟩

/-- C8 — a single endpoint given in string form is wrapped as a new Server and
appended unconditionally, even when an equal server is already in the pool (so
the result list strictly grows), whereas the same server passed as a Server
object takes the dedup path and is skipped. -/
theorem add_string_no_dedup (pool : ServerPool) (a : String) (rs : Nat → Nat) :
    (pool.add rs (.str a)).1.servers = pool.servers ++ [⟨a⟩] ∧
    (Server.mk a ∈ pool.servers →
      (pool.add rs (.str a)).1.servers ≠ pool.servers ∧
      (pool.add rs (.server ⟨a⟩)).1.servers = pool.servers) := by
  have h1 : (pool.add rs (.str a)).1.servers = pool.servers ++ [⟨a⟩] := by
    unfold ServerPool.add
    dsimp only
    rfl
  refine ⟨h1, ?_⟩
  intro hmem
  constructor
  · rw [h1]
    intro hcontra
    have := congrArg List.length hcontra
    simp at this
  · unfold ServerPool.add
    dsimp only
    rw [if_pos hmem]
    rfl

/-- Witness for C8 at a pool already containing Server "a". -/
theorem add_string_no_dedup_witness :
    ((ServerPool.add ⟨[⟨"a"⟩], .first, true, false, []⟩ (fun _ => 0)
        (.str "a")).1.servers = [⟨"a"⟩] ++ [⟨"a"⟩] ∧
      (Server.mk "a" ∈ ([⟨"a"⟩] : List Server) →
        (ServerPool.add ⟨[⟨"a"⟩], .first, true, false, []⟩ (fun _ => 0)
          (.str "a")).1.servers ≠ [⟨"a"⟩] ∧
        (ServerPool.add ⟨[⟨"a"⟩], .first, true, false, []⟩ (fun _ => 0)
          (.server ⟨"a"⟩)).1.servers = [⟨"a"⟩])) ∧
    Server.mk "a" ∈ ([⟨"a"⟩] : List Server) :=
  ⟨add_string_no_dedup ⟨[⟨"a"⟩], .first, true, false, []⟩ "a" (fun _ => 0),
    by decide⟩

/-- C10 — empty construction is legal: ServerPool construction with no initial
servers and a valid strategy/flag combination succeeds, yielding a pool with
zero endpoints and no registered cursors; the emptiness is not rejected at
construction time. -/
theorem empty_construction_ok (rs : Nat → Nat) (strat : PoolingStrategy)
    (active exhaust : Bool) (hs : strat ≠ .invalid)
    (hx : exhaust = true → active = true) :
    ServerPool.init rs .noneArg strat active exhaust =
      .ok ⟨[], strat, active, exhaust, []⟩ ∧
    ServerPool.length ⟨[], strat, active, exhaust, []⟩ = 0 := by
  refine ⟨?_, rfl⟩
  unfold ServerPool.init
  rw [if_neg hs]
  have hb : (exhaust && !active) = false := by
    cases exhaust
    · simp
    · simp [hx rfl]
  simp only [hb, Bool.false_eq_true, if_false]

/-- Witness for C10: a ROUND_ROBIN pool with defaults active=True,
exhaust=False built from no servers. -/
theorem empty_construction_ok_witness :
    PoolingStrategy.roundRobin ≠ PoolingStrategy.invalid ∧
    (ServerPool.init (fun _ => 0) .noneArg .roundRobin true false =
        .ok ⟨[], .roundRobin, true, false, []⟩ ∧
      ServerPool.length ⟨[], .roundRobin, true, false, []⟩ = 0) :=
  ⟨by decide, empty_construction_ok (fun _ => 0) .roundRobin true false
    (by decide) (fun _ => rfl)⟩
